import Mathlib

/-!
Verification of the validation + hierarchical aggregation engine of
`src/getData.mjs` (zod-based parse of an estimate plan, with bottom-up
aggregation of effort estimates).

Shallow embedding conventions:
* JavaScript numbers are idealised as rationals `ℚ` (the inputs are plain
  JSON numbers; sums, divisions and `Math.round` are modelled exactly).
* `Math.round` is JavaScript round-half-toward-positive-infinity:
  `jsRound x = ⌊x + 1/2⌋`.
* Raw (untrusted) input values are modelled by the JSON-like type `JsValue`;
  zod's `.parse`, which throws a `ZodError` on a shape mismatch, is modelled
  as a function into `Except String _`.
* For claim C5 a second number model `JsNum` with an explicit `NaN` is used,
  so that "the result is NaN" is expressible.
-/

/-- The four effort-estimate fields shared by every level
(`estimates` schema, src/getData.mjs lines 7-12; zod enforces only
`z.number()` on each field — no range constraints). -/
structure Estimates where
  lowerEstimate : ℚ
  higherEstimate : ℚ
  complexity : ℚ
  confidence : ℚ
deriving Repr, DecidableEq

/-- JavaScript `Math.round`: round half toward positive infinity. -/
def jsRound (x : ℚ) : ℚ := ((⌊x + 1/2⌋ : ℤ) : ℚ)

/-- One step of the `reduce` callback at src/getData.mjs lines 41-48
(identically repeated at lines 69-76 and 98-105): add the child's bounds
and the child's complexity/confidence divided by the child count `n`. -/
def totalsStep (n : ℚ) (acc : Estimates) (task : Estimates) : Estimates :=
  { lowerEstimate := acc.lowerEstimate + task.lowerEstimate
    higherEstimate := acc.higherEstimate + task.higherEstimate
    complexity := acc.complexity + task.complexity / n
    confidence := acc.confidence + task.confidence / n }

/-- The whole `reduce` with initial accumulator `{0,0,0,0}` followed by
`Math.round` on `complexity` and `confidence`
(src/getData.mjs lines 40-53; the same code is repeated verbatim at
lines 68-80 for categories and lines 97-109 for the root, so it is
defined once here). -/
def reduceTotals (children : List Estimates) : Estimates :=
  let n : ℚ := (children.length : ℚ)
  let t := children.foldl (totalsStep n) ⟨0, 0, 0, 0⟩
  { t with complexity := jsRound t.complexity, confidence := jsRound t.confidence }

/-- `gantt` schema (src/getData.mjs lines 14-19). -/
structure Gantt where
  position : ℚ
  start : String
  label : Option String
  color : Option String
deriving Repr, DecidableEq

/-- `minorTask` schema (src/getData.mjs lines 21-30):
`name` plus the four estimate fields plus optional `comment`. -/
structure MinorTask where
  name : String
  lowerEstimate : ℚ
  higherEstimate : ℚ
  complexity : ℚ
  confidence : ℚ
  comment : Option String
deriving Repr, DecidableEq

/-- `majorTaskIn` schema (src/getData.mjs lines 32-36). -/
structure MajorTaskIn where
  name : String
  tasks : List MinorTask
  gantt : Gantt
deriving Repr, DecidableEq

/-- The result type of the `majorTask` schema
(`majorTaskIn.and(estimates)`, src/getData.mjs line 59). -/
structure MajorTask where
  name : String
  tasks : List MinorTask
  gantt : Gantt
  lowerEstimate : ℚ
  higherEstimate : ℚ
  complexity : ℚ
  confidence : ℚ
deriving Repr, DecidableEq

/-- `taskCategoryIn` schema (src/getData.mjs lines 61-64). -/
structure TaskCategoryIn where
  name : String
  tasks : List MajorTask
deriving Repr, DecidableEq

/-- The result type of the `taskCategory` schema
(`taskCategoryIn.and(estimates)`, src/getData.mjs line 89). -/
structure TaskCategory where
  name : String
  tasks : List MajorTask
  lowerEstimate : ℚ
  higherEstimate : ℚ
  complexity : ℚ
  confidence : ℚ
deriving Repr, DecidableEq

/-- `estimateSchema` (src/getData.mjs lines 91-93). -/
structure EstimateSchema where
  estimates : List TaskCategory
deriving Repr, DecidableEq

/-- The result type of the `estimateList` schema
(`estimateSchema.and(estimates)`, src/getData.mjs line 115). -/
structure EstimateList where
  estimates : List TaskCategory
  lowerEstimate : ℚ
  higherEstimate : ℚ
  complexity : ℚ
  confidence : ℚ
deriving Repr, DecidableEq

/-- The estimate fields of a minor task, as read by the `reduce` callback. -/
def MinorTask.est (m : MinorTask) : Estimates :=
  ⟨m.lowerEstimate, m.higherEstimate, m.complexity, m.confidence⟩

/-- The estimate fields of a major task, as read by the `reduce` callback. -/
def MajorTask.est (m : MajorTask) : Estimates :=
  ⟨m.lowerEstimate, m.higherEstimate, m.complexity, m.confidence⟩

/-- The estimate fields of a category, as read by the `reduce` callback. -/
def TaskCategory.est (c : TaskCategory) : Estimates :=
  ⟨c.lowerEstimate, c.higherEstimate, c.complexity, c.confidence⟩

/-- Insert a major task into a list, before the first element with a
`gantt.position` that is not smaller.  Together with `sortByPos` this is
the (stable) ascending sort by `a.gantt.position - b.gantt.position`
performed by `input.tasks.sort` at src/getData.mjs lines 81-83
(ECMAScript `Array.prototype.sort` is stable, and a stable sort for a
given total preorder is unique, so insertion sort models it exactly). -/
def insertByPos (t : MajorTask) : List MajorTask → List MajorTask
  | [] => [t]
  | u :: us =>
    if t.gantt.position ≤ u.gantt.position then t :: u :: us
    else u :: insertByPos t us

/-- Stable insertion sort of major tasks by ascending `gantt.position`
(src/getData.mjs lines 81-83). -/
def sortByPos : List MajorTask → List MajorTask
  | [] => []
  | t :: ts => insertByPos t (sortByPos ts)

/-- The preprocessing step of the `majorTask` schema
(src/getData.mjs lines 38-59), applied after `majorTaskIn.parse`
succeeded: compute the totals of the minor tasks and spread them over
the input.  The output schema `majorTaskIn.and(estimates)` then accepts
the result unchanged (every required field is present with the right
type), so it is not repeated here. -/
def aggregateMajor (t : MajorTaskIn) : MajorTask :=
  let totals := reduceTotals (t.tasks.map MinorTask.est)
  { name := t.name
    tasks := t.tasks
    gantt := t.gantt
    lowerEstimate := totals.lowerEstimate
    higherEstimate := totals.higherEstimate
    complexity := totals.complexity
    confidence := totals.confidence }

/-- The preprocessing step of the `taskCategory` schema
(src/getData.mjs lines 66-89): compute the totals of the major tasks
(in input order), sort the major tasks in place by `gantt.position`,
and spread the totals over the input.  As for `aggregateMajor`, the
output schema `taskCategoryIn.and(estimates)` accepts the result
unchanged. -/
def aggregateCategory (t : TaskCategoryIn) : TaskCategory :=
  let totals := reduceTotals (t.tasks.map MajorTask.est)
  { name := t.name
    tasks := sortByPos t.tasks
    lowerEstimate := totals.lowerEstimate
    higherEstimate := totals.higherEstimate
    complexity := totals.complexity
    confidence := totals.confidence }

/-- The preprocessing step of the `estimateList` schema
(src/getData.mjs lines 95-115): compute the totals of the categories and
spread them over the input. -/
def aggregateRoot (t : EstimateSchema) : EstimateList :=
  let totals := reduceTotals (t.estimates.map TaskCategory.est)
  { estimates := t.estimates
    lowerEstimate := totals.lowerEstimate
    higherEstimate := totals.higherEstimate
    complexity := totals.complexity
    confidence := totals.confidence }

/-- JSON-like raw values, the input of `zod`'s `.parse`.  The estimates
document is read with `JSON.parse` (src/getData.mjs line 125), so raw
values are null, booleans, numbers, strings, arrays and objects. -/
inductive JsValue where
  | null
  | bool (b : Bool)
  | num (x : ℚ)
  | str (s : String)
  | arr (elems : List JsValue)
  | obj (fields : List (String × JsValue))
deriving Repr

/-- JavaScript property read on an object: the value under a key.
(`JSON.parse` keeps one value per key, so key lookup is unambiguous.) -/
def getField : List (String × JsValue) → String → Option JsValue
  | [], _ => none
  | (k, v) :: fields, key => if k = key then some v else getField fields key

/-- `z.number()` on a required object field. -/
def parseNumberField (fields : List (String × JsValue)) (key : String) :
    Except String ℚ :=
  match getField fields key with
  | some (.num x) => .ok x
  | some _ => .error (key ++ ": expected a number")
  | none => .error (key ++ ": required")

/-- `z.string()` on a required object field. -/
def parseStringField (fields : List (String × JsValue)) (key : String) :
    Except String String :=
  match getField fields key with
  | some (.str s) => .ok s
  | some _ => .error (key ++ ": expected a string")
  | none => .error (key ++ ": required")

/-- `z.string().optional()` on an object field: the key may be absent,
but when present its value must be a string. -/
def parseOptStringField (fields : List (String × JsValue)) (key : String) :
    Except String (Option String) :=
  match getField fields key with
  | some (.str s) => .ok (some s)
  | some _ => .error (key ++ ": expected a string")
  | none => .ok none

/-- Elementwise parse of an array's elements, failing as soon as one
element fails (the behaviour of `z.array(elem).parse`). -/
def parseList (elem : JsValue → Except String α) : List JsValue → Except String (List α)
  | [] => .ok []
  | x :: xs => do
    let a ← elem x
    let as ← parseList elem xs
    .ok (a :: as)

/-- `z.array(elem)` on a required object field: the value must be an array
and every element must parse. -/
def parseArrayField (elem : JsValue → Except String α)
    (fields : List (String × JsValue)) (key : String) :
    Except String (List α) :=
  match getField fields key with
  | some (.arr xs) => parseList elem xs
  | some _ => .error (key ++ ": expected an array")
  | none => .error (key ++ ": required")

/-- The `minorTask` schema's parse (src/getData.mjs lines 21-30):
the intersection of `z.object({name})`, `estimates` and
`z.object({comment optional})` reads all six fields off one object. -/
def minorTask_parse : JsValue → Except String MinorTask
  | .obj fields => do
    let name ← parseStringField fields ("name")
    let lowerEstimate ← parseNumberField fields ("lowerEstimate")
    let higherEstimate ← parseNumberField fields ("higherEstimate")
    let complexity ← parseNumberField fields ("complexity")
    let confidence ← parseNumberField fields ("confidence")
    let comment ← parseOptStringField fields ("comment")
    .ok ⟨name, lowerEstimate, higherEstimate, complexity, confidence, comment⟩
  | _ => .error ("minorTask: expected an object")

/-- The `gantt` schema's parse (src/getData.mjs lines 14-19). -/
def gantt_parse : JsValue → Except String Gantt
  | .obj fields => do
    let position ← parseNumberField fields ("position")
    let start ← parseStringField fields ("start")
    let label ← parseOptStringField fields ("label")
    let color ← parseOptStringField fields ("color")
    .ok ⟨position, start, label, color⟩
  | _ => .error ("gantt: expected an object")

/-- The `majorTaskIn` schema's parse (src/getData.mjs lines 32-36). -/
def majorTaskIn_parse : JsValue → Except String MajorTaskIn
  | .obj fields => do
    let name ← parseStringField fields ("name")
    let tasks ← parseArrayField minorTask_parse fields ("tasks")
    let g ← (match getField fields ("gantt") with
             | some v => gantt_parse v
             | none => .error ("gantt: required"))
    .ok ⟨name, tasks, g⟩
  | _ => .error ("majorTask: expected an object")

/-- The `majorTask` schema's parse (src/getData.mjs lines 38-59):
`z.preprocess` first runs `majorTaskIn.parse` (whose `ZodError`, on
failure, propagates), then aggregates; the output schema
`majorTaskIn.and(estimates)` accepts the aggregated record unchanged,
since every required field is present with the right type. -/
def majorTask_parse (v : JsValue) : Except String MajorTask :=
  (majorTaskIn_parse v).map aggregateMajor

/-- The `taskCategoryIn` schema's parse (src/getData.mjs lines 61-64). -/
def taskCategoryIn_parse : JsValue → Except String TaskCategoryIn
  | .obj fields => do
    let name ← parseStringField fields ("name")
    let tasks ← parseArrayField majorTask_parse fields ("tasks")
    .ok ⟨name, tasks⟩
  | _ => .error ("taskCategory: expected an object")

/-- The `taskCategory` schema's parse (src/getData.mjs lines 66-89). -/
def taskCategory_parse (v : JsValue) : Except String TaskCategory :=
  (taskCategoryIn_parse v).map aggregateCategory

/-- The `estimateSchema` parse (src/getData.mjs lines 91-93). -/
def estimateSchema_parse : JsValue → Except String EstimateSchema
  | .obj fields => do
    let cats ← parseArrayField taskCategory_parse fields ("estimates")
    .ok ⟨cats⟩
  | _ => .error ("estimateList: expected an object")

/-- The `estimateList` schema's parse (src/getData.mjs lines 95-115):
the whole parse-and-aggregate operation applied to the raw document. -/
def estimateList_parse (v : JsValue) : Except String EstimateList :=
  (estimateSchema_parse v).map aggregateRoot

/-- A concrete schedule entry, used by the concrete witness inputs below. -/
def sampleGantt : Gantt := ⟨1, "2022-01-01", none, none⟩

/-- A concrete major-task input with two minor tasks
(complexity values 1 and 2, confidence values 4 and 2). -/
def sampleMajorIn : MajorTaskIn :=
  ⟨"M", [⟨"a", 2, 4, 1, 4, none⟩, ⟨"b", 1, 2, 2, 2, none⟩], sampleGantt⟩

/-- The comparator ordering of the sort at src/getData.mjs lines 81-83:
ascending `gantt.position`. -/
def posLe (a b : MajorTask) : Prop := a.gantt.position ≤ b.gantt.position

/-- A concrete aggregated major task with no minor tasks, at schedule
position `p`. -/
def sampleMajor (nm : String) (p : ℚ) : MajorTask :=
  ⟨nm, [], ⟨p, "2022-01-01", none, none⟩, 0, 0, 0, 0⟩

/-- A concrete category input whose major tasks have `gantt.position`
values 3, 1, 2. -/
def sampleCategoryIn : TaskCategoryIn :=
  ⟨"C", [sampleMajor "x" 3, sampleMajor "y" 1, sampleMajor "z" 2]⟩

/-- A raw minor-task object violating the spec range bounds
(`lowerEstimate = -1 < 0` and `higherEstimate = -2 < lowerEstimate`). -/
def outOfRangeMinorRaw : JsValue :=
  .obj [("name", .str "a"), ("lowerEstimate", .num (-1)),
        ("higherEstimate", .num (-2)), ("complexity", .num 1), ("confidence", .num 1)]

/-- A raw minor-task object with no `name` key. -/
def badMinorFields : List (String × JsValue) := [("lowerEstimate", .num 1)]

/-- A raw major-task object whose single minor task lacks `name`. -/
def badMajorFields : List (String × JsValue) :=
  [("name", .str "M"), ("tasks", .arr [.obj badMinorFields]),
   ("gantt", .obj [("position", .num 1), ("start", .str "2022-01-01")])]

/-- A raw category object containing `badMajorFields`. -/
def badCatFields : List (String × JsValue) :=
  [("name", .str "C"), ("tasks", .arr [.obj badMajorFields])]

/-- A raw estimates document whose single minor task lacks `name`. -/
def badRootFields : List (String × JsValue) :=
  [("estimates", .arr [.obj badCatFields])]

/-- A raw major-task object encoding `sampleMajorIn`. -/
def goodMajorFields : List (String × JsValue) :=
  [("name", .str "M"),
   ("tasks", .arr [
      .obj [("name", .str "a"), ("lowerEstimate", .num 2), ("higherEstimate", .num 4),
            ("complexity", .num 1), ("confidence", .num 4)],
      .obj [("name", .str "b"), ("lowerEstimate", .num 1), ("higherEstimate", .num 2),
            ("complexity", .num 2), ("confidence", .num 2)]]),
   ("gantt", .obj [("position", .num 1), ("start", .str "2022-01-01")])]

/-- The aggregated major task produced from `goodMajorFields`. -/
def sampleMajorOut : MajorTask :=
  ⟨"M", [⟨"a", 2, 4, 1, 4, none⟩, ⟨"b", 1, 2, 2, 2, none⟩], ⟨1, "2022-01-01", none, none⟩,
   3, 6, 2, 3⟩

/-- JavaScript numbers with `NaN` and the infinities explicit, used for
claim C5 so that "the result is NaN" is expressible.  Finite arithmetic
is idealised as exact rational arithmetic, as in the main model. -/
inductive JsNum where
  | nan
  | posInf
  | negInf
  | fin (x : ℚ)
deriving Repr, DecidableEq

/-- JavaScript `+` on `JsNum`. -/
def jsAdd : JsNum → JsNum → JsNum
  | .nan, _ => .nan
  | _, .nan => .nan
  | .posInf, .negInf => .nan
  | .negInf, .posInf => .nan
  | .posInf, _ => .posInf
  | _, .posInf => .posInf
  | .negInf, _ => .negInf
  | _, .negInf => .negInf
  | .fin a, .fin b => .fin (a + b)

/-- JavaScript `/` on `JsNum`: `0 / 0` is `NaN`, a nonzero finite value
divided by zero is a signed infinity.  (Signed zero is not modelled; it
plays no role in the aggregation.) -/
def jsDiv : JsNum → JsNum → JsNum
  | .nan, _ => .nan
  | _, .nan => .nan
  | .posInf, .posInf => .nan
  | .posInf, .negInf => .nan
  | .negInf, .posInf => .nan
  | .negInf, .negInf => .nan
  | .posInf, .fin b => if b < 0 then .negInf else .posInf
  | .negInf, .fin b => if b < 0 then .posInf else .negInf
  | .fin _, .posInf => .fin 0
  | .fin _, .negInf => .fin 0
  | .fin a, .fin b =>
    if b = 0 then (if a = 0 then .nan else if 0 < a then .posInf else .negInf)
    else .fin (a / b)

/-- JavaScript `Math.round` on `JsNum`: `NaN` and the infinities are
returned unchanged. -/
def jsRoundNum : JsNum → JsNum
  | .nan => .nan
  | .posInf => .posInf
  | .negInf => .negInf
  | .fin x => .fin (jsRound x)

/-- The four effort-estimate fields over the NaN-aware number model. -/
structure EstimatesJ where
  lowerEstimate : JsNum
  higherEstimate : JsNum
  complexity : JsNum
  confidence : JsNum
deriving Repr, DecidableEq

/-- The `reduce` callback of src/getData.mjs lines 41-48 over the
NaN-aware number model. -/
def totalsStepJ (n : JsNum) (acc task : EstimatesJ) : EstimatesJ :=
  { lowerEstimate := jsAdd acc.lowerEstimate task.lowerEstimate
    higherEstimate := jsAdd acc.higherEstimate task.higherEstimate
    complexity := jsAdd acc.complexity (jsDiv task.complexity n)
    confidence := jsAdd acc.confidence (jsDiv task.confidence n) }

/-- The whole `reduce` of src/getData.mjs lines 40-53 over the NaN-aware
number model: fold from `{0,0,0,0}`, then `Math.round` the two scores. -/
def reduceTotalsJ (children : List EstimatesJ) : EstimatesJ :=
  let n : JsNum := .fin ((children.length : ℚ))
  let t := children.foldl (totalsStepJ n) ⟨.fin 0, .fin 0, .fin 0, .fin 0⟩
  { t with complexity := jsRoundNum t.complexity, confidence := jsRoundNum t.confidence }

/-- The names of the four derived estimate fields. -/
def derivedKeys : List String :=
  ["lowerEstimate", "higherEstimate", "complexity", "confidence"]

/-- Drop the derived keys from an object's field list. -/
def removeDerivedKeys (fields : List (String × JsValue)) : List (String × JsValue) :=
  fields.filter (fun p => !(derivedKeys.contains p.1))

/-- Map a function over an array value's elements, leaving any other
value unchanged. -/
def mapArr (f : JsValue → JsValue) : JsValue → JsValue
  | .arr xs => .arr (xs.map f)
  | v => v

/-- Transform the value stored under one key of a field list. -/
def mapField (target : String) (g : JsValue → JsValue) :
    List (String × JsValue) → List (String × JsValue)
  | [] => []
  | (k, v) :: fields =>
    if k = target then (k, g v) :: mapField target g fields
    else (k, v) :: mapField target g fields

/-- Erase the derived fields of a raw major-task object.  Minor tasks,
whose estimate fields are genuine input, are untouched. -/
def eraseMajor : JsValue → JsValue
  | .obj fields => .obj (removeDerivedKeys fields)
  | v => v

/-- Erase the derived fields of a raw category object and of the major
tasks in its `tasks` array. -/
def eraseCategory : JsValue → JsValue
  | .obj fields => .obj (mapField ("tasks") (mapArr eraseMajor) (removeDerivedKeys fields))
  | v => v

/-- Erase the derived fields of a raw document at the root, category and
major-task levels: exactly the fields the derivation overwrites. -/
def eraseRoot : JsValue → JsValue
  | .obj fields => .obj (mapField ("estimates") (mapArr eraseCategory) (removeDerivedKeys fields))
  | v => v

/-- Encode an optional string field of an output object. -/
def optField (key : String) : Option String → List (String × JsValue)
  | none => []
  | some s => [(key, .str s)]

/-- The raw object a parsed minor task corresponds to. -/
def encodeMinor (m : MinorTask) : JsValue :=
  .obj ([("name", .str m.name), ("lowerEstimate", .num m.lowerEstimate),
         ("higherEstimate", .num m.higherEstimate), ("complexity", .num m.complexity),
         ("confidence", .num m.confidence)] ++ optField ("comment") m.comment)

/-- The raw object a parsed schedule entry corresponds to. -/
def encodeGantt (g : Gantt) : JsValue :=
  .obj ([("position", .num g.position), ("start", .str g.start)] ++
        optField ("label") g.label ++ optField ("color") g.color)

/-- The raw object an aggregated major task corresponds to (derived
fields included, as in the aggregated output tree). -/
def encodeMajor (t : MajorTask) : JsValue :=
  .obj [("name", .str t.name), ("tasks", .arr (t.tasks.map encodeMinor)),
        ("gantt", encodeGantt t.gantt), ("lowerEstimate", .num t.lowerEstimate),
        ("higherEstimate", .num t.higherEstimate), ("complexity", .num t.complexity),
        ("confidence", .num t.confidence)]

/-- The raw object an aggregated category corresponds to. -/
def encodeCategory (c : TaskCategory) : JsValue :=
  .obj [("name", .str c.name), ("tasks", .arr (c.tasks.map encodeMajor)),
        ("lowerEstimate", .num c.lowerEstimate), ("higherEstimate", .num c.higherEstimate),
        ("complexity", .num c.complexity), ("confidence", .num c.confidence)]

/-- The raw document an aggregated plan corresponds to. -/
def encodeRoot (p : EstimateList) : JsValue :=
  .obj [("estimates", .arr (p.estimates.map encodeCategory)),
        ("lowerEstimate", .num p.lowerEstimate), ("higherEstimate", .num p.higherEstimate),
        ("complexity", .num p.complexity), ("confidence", .num p.confidence)]

/-- A raw document that carries (ignored) derived fields at the root, a
category and a major task. -/
def rawWithDerived : JsValue :=
  .obj [("estimates", .arr [
    .obj [("name", .str "C"),
          ("tasks", .arr [
            .obj [("name", .str "M"), ("tasks", .arr []),
                  ("gantt", .obj [("position", .num 1), ("start", .str "2022-01-01")]),
                  ("lowerEstimate", .num 99)]]),
          ("confidence", .num 42)]]),
        ("higherEstimate", .num 7)]

/-- `rawWithDerived` with the spurious derived fields removed. -/
def rawWithoutDerived : JsValue :=
  .obj [("estimates", .arr [
    .obj [("name", .str "C"),
          ("tasks", .arr [
            .obj [("name", .str "M"), ("tasks", .arr []),
                  ("gantt", .obj [("position", .num 1), ("start", .str "2022-01-01")])]])]])]

/-- A raw document with one category containing the major task of
`goodMajorFields`. -/
def sampleRootRaw : JsValue :=
  .obj [("estimates", .arr [
    .obj [("name", .str "C"), ("tasks", .arr [.obj goodMajorFields])]])]

/-- The aggregated plan produced from `sampleRootRaw`. -/
def sampleRootOut : EstimateList :=
  ⟨[⟨"C", [sampleMajorOut], 3, 6, 2, 3⟩], 3, 6, 2, 3⟩

/-- Inversion for `Except` bind: a bind yields `ok` exactly when both
stages do. -/
theorem exceptBind_eq_ok {x : Except ε α} {f : α → Except ε β} {b : β} :
    (x >>= f) = .ok b ↔ ∃ a, x = .ok a ∧ f a = .ok b := by
  cases x with
  | ok a => simp [Bind.bind, Except.bind]
  | error e => simp [Bind.bind, Except.bind]

/-- A bind whose first stage failed fails. -/
theorem exceptBind_error {f : α → Except ε β} {e : ε} :
    ((Except.error e : Except ε α) >>= f) = .error e := rfl

/-- Rewriting equation: bind on a success. -/
theorem exceptBindOk (a : α) (f : α → Except ε β) : (Except.ok a >>= f) = f a := rfl

/-- Rewriting equation: bind on a failure. -/
theorem exceptBindErr (e : ε) (f : α → Except ε β) :
    ((Except.error e : Except ε α) >>= f) = .error e := rfl

/-- Rewriting equation: map on a success. -/
theorem exceptMapOk (a : α) (f : α → β) :
    (Except.ok a : Except ε α).map f = .ok (f a) := rfl

/-- Rewriting equation: map on a failure. -/
theorem exceptMapErr (e : ε) (f : α → β) :
    (Except.error e : Except ε α).map f = .error e := rfl

/-- Map inversion: a mapped parse succeeds exactly when the parse does. -/
theorem exceptMap_eq_ok {x : Except ε α} {f : α → β} {b : β} :
    x.map f = .ok b ↔ ∃ a, x = .ok a ∧ f a = b := by
  cases x with
  | ok a => simp [Except.map]
  | error e => simp [Except.map]

/-- Closed form of the `reduce` callback's fold: componentwise, the sums
of the children's bounds and the sums of the children's scores divided
by `n`. -/
theorem foldl_totalsStep (n : ℚ) (l : List Estimates) (acc : Estimates) :
    l.foldl (totalsStep n) acc =
      ⟨acc.lowerEstimate + (l.map Estimates.lowerEstimate).sum,
       acc.higherEstimate + (l.map Estimates.higherEstimate).sum,
       acc.complexity + (l.map Estimates.complexity).sum / n,
       acc.confidence + (l.map Estimates.confidence).sum / n⟩ := by
  induction l generalizing acc with
  | nil => simp
  | cons t ts ih =>
    simp only [List.foldl_cons, List.map_cons, List.sum_cons, ih]
    simp only [totalsStep, Estimates.mk.injEq]
    refine ⟨by ring, by ring, ?_, ?_⟩ <;> rw [add_div] <;> ring

/-- Closed form of `reduceTotals`: exact sums of the bounds, rounded
means of the scores. -/
theorem reduceTotals_eq (l : List Estimates) :
    reduceTotals l =
      ⟨(l.map Estimates.lowerEstimate).sum,
       (l.map Estimates.higherEstimate).sum,
       jsRound ((l.map Estimates.complexity).sum / (l.length : ℚ)),
       jsRound ((l.map Estimates.confidence).sum / (l.length : ℚ))⟩ := by
  simp [reduceTotals, foldl_totalsStep]

/-- C1: at every non-leaf level (MajorTask over its MinorTasks,
TaskCategory over its MajorTasks, EstimatePlan over its TaskCategories),
the derived `lowerEstimate` is the exact sum of the children's
`lowerEstimate` values and the derived `higherEstimate` is the exact sum
of the children's `higherEstimate` values. -/
theorem nonLeaf_estimates_are_exact_sums :
    (∀ t : MajorTaskIn,
      (aggregateMajor t).lowerEstimate = (t.tasks.map MinorTask.lowerEstimate).sum ∧
      (aggregateMajor t).higherEstimate = (t.tasks.map MinorTask.higherEstimate).sum) ∧
    (∀ c : TaskCategoryIn,
      (aggregateCategory c).lowerEstimate = (c.tasks.map MajorTask.lowerEstimate).sum ∧
      (aggregateCategory c).higherEstimate = (c.tasks.map MajorTask.higherEstimate).sum) ∧
    (∀ p : EstimateSchema,
      (aggregateRoot p).lowerEstimate = (p.estimates.map TaskCategory.lowerEstimate).sum ∧
      (aggregateRoot p).higherEstimate = (p.estimates.map TaskCategory.higherEstimate).sum) := by
  refine ⟨fun t => ?_, fun c => ?_, fun p => ?_⟩ <;>
    simp [aggregateMajor, aggregateCategory, aggregateRoot, reduceTotals_eq,
      List.map_map, Function.comp_def, MinorTask.est, MajorTask.est, TaskCategory.est]

/-- C2: at every non-leaf level with a non-empty child sequence, the
derived `complexity` is the rounded arithmetic mean of the children's
`complexity` values and the derived `confidence` is the rounded
arithmetic mean of the children's `confidence` values (not their sum),
rounding with JavaScript's `Math.round` (`jsRound`); in particular
children with complexity values `[1, 2]` yield `jsRound (3/2) = 2` and
children with complexity values `[2, 3, 4]` yield `jsRound 3 = 3`. -/
theorem nonLeaf_scores_are_rounded_means :
    (∀ t : MajorTaskIn, t.tasks ≠ [] →
      (aggregateMajor t).complexity =
        jsRound ((t.tasks.map MinorTask.complexity).sum / (t.tasks.length : ℚ)) ∧
      (aggregateMajor t).confidence =
        jsRound ((t.tasks.map MinorTask.confidence).sum / (t.tasks.length : ℚ))) ∧
    (∀ c : TaskCategoryIn, c.tasks ≠ [] →
      (aggregateCategory c).complexity =
        jsRound ((c.tasks.map MajorTask.complexity).sum / (c.tasks.length : ℚ)) ∧
      (aggregateCategory c).confidence =
        jsRound ((c.tasks.map MajorTask.confidence).sum / (c.tasks.length : ℚ))) ∧
    (∀ p : EstimateSchema, p.estimates ≠ [] →
      (aggregateRoot p).complexity =
        jsRound ((p.estimates.map TaskCategory.complexity).sum / (p.estimates.length : ℚ)) ∧
      (aggregateRoot p).confidence =
        jsRound ((p.estimates.map TaskCategory.confidence).sum / (p.estimates.length : ℚ))) ∧
    jsRound ((1 + 2) / 2) = 2 ∧ jsRound ((2 + 3 + 4) / 3) = 3 := by
  refine ⟨fun t _ => ?_, fun c _ => ?_, fun p _ => ?_, by norm_num [jsRound], by norm_num [jsRound]⟩ <;>
    simp [aggregateMajor, aggregateCategory, aggregateRoot, reduceTotals_eq,
      List.map_map, Function.comp_def, MinorTask.est, MajorTask.est, TaskCategory.est]

/-- Witness for C2: a major task with two minor tasks of complexity 1
and 2 and confidence 4 and 2 has complexity `jsRound (3/2) = 2` and
confidence `jsRound 3 = 3`. -/
theorem nonLeaf_scores_are_rounded_means_witness :
    sampleMajorIn.tasks ≠ [] ∧
    ((aggregateMajor sampleMajorIn).complexity =
        jsRound ((sampleMajorIn.tasks.map MinorTask.complexity).sum /
          (sampleMajorIn.tasks.length : ℚ)) ∧
      (aggregateMajor sampleMajorIn).confidence =
        jsRound ((sampleMajorIn.tasks.map MinorTask.confidence).sum /
          (sampleMajorIn.tasks.length : ℚ))) :=
  ⟨by simp [sampleMajorIn], nonLeaf_scores_are_rounded_means.1 sampleMajorIn
    (by simp [sampleMajorIn])⟩

/-- C10: at all three aggregation levels, if every child satisfies
`lowerEstimate ≤ higherEstimate`, then the node's derived fields also
satisfy `lowerEstimate ≤ higherEstimate`. -/
theorem aggregation_preserves_bound_order :
    (∀ t : MajorTaskIn, (∀ m ∈ t.tasks, m.lowerEstimate ≤ m.higherEstimate) →
      (aggregateMajor t).lowerEstimate ≤ (aggregateMajor t).higherEstimate) ∧
    (∀ c : TaskCategoryIn, (∀ m ∈ c.tasks, m.lowerEstimate ≤ m.higherEstimate) →
      (aggregateCategory c).lowerEstimate ≤ (aggregateCategory c).higherEstimate) ∧
    (∀ p : EstimateSchema, (∀ m ∈ p.estimates, m.lowerEstimate ≤ m.higherEstimate) →
      (aggregateRoot p).lowerEstimate ≤ (aggregateRoot p).higherEstimate) := by
  refine ⟨fun t h => ?_, fun c h => ?_, fun p h => ?_⟩ <;>
  · simp only [aggregateMajor, aggregateCategory, aggregateRoot, reduceTotals_eq,
      List.map_map, Function.comp_def, MinorTask.est, MajorTask.est, TaskCategory.est]
    exact List.sum_le_sum h

/-- Insertion produces a permutation of consing. -/
theorem insertByPos_perm (t : MajorTask) (l : List MajorTask) :
    (insertByPos t l).Perm (t :: l) := by
  induction l with
  | nil => exact List.Perm.refl _
  | cons u us ih =>
    by_cases h : t.gantt.position ≤ u.gantt.position
    · simp [insertByPos, h]
    · simp only [insertByPos, if_neg h]
      exact (ih.cons u).trans (List.Perm.swap t u us)

/-- The sort produces a permutation of its input. -/
theorem sortByPos_perm (l : List MajorTask) : (sortByPos l).Perm l := by
  induction l with
  | nil => exact List.Perm.refl _
  | cons t ts ih => exact (insertByPos_perm t (sortByPos ts)).trans (ih.cons t)

/-- Members after insertion. -/
theorem mem_insertByPos {x t : MajorTask} {l : List MajorTask}
    (hx : x ∈ insertByPos t l) : x = t ∨ x ∈ l := by
  have := (insertByPos_perm t l).mem_iff.mp hx
  simpa using this

/-- Insertion into a sorted list keeps it sorted. -/
theorem pairwise_insertByPos {t : MajorTask} {l : List MajorTask}
    (h : l.Pairwise posLe) : (insertByPos t l).Pairwise posLe := by
  induction l with
  | nil => simp [insertByPos, posLe]
  | cons u us ih =>
    rcases List.pairwise_cons.mp h with ⟨hu, hus⟩
    by_cases hc : t.gantt.position ≤ u.gantt.position
    · simp only [insertByPos, if_pos hc]
      refine List.pairwise_cons.mpr ⟨?_, h⟩
      intro x hx
      rcases List.mem_cons.mp hx with rfl | hx
      · exact hc
      · exact le_trans hc (hu x hx)
    · simp only [insertByPos, if_neg hc]
      refine List.pairwise_cons.mpr ⟨?_, ih hus⟩
      intro x hx
      rcases mem_insertByPos hx with rfl | hx
      · exact le_of_not_le hc
      · exact hu x hx

/-- The sort's output is sorted by ascending `gantt.position`. -/
theorem sortByPos_pairwise (l : List MajorTask) : (sortByPos l).Pairwise posLe := by
  induction l with
  | nil => simp [sortByPos]
  | cons t ts ih => exact pairwise_insertByPos ih

/-- Stability of insertion: the elements at one position are unchanged. -/
theorem filter_insertByPos (t : MajorTask) (l : List MajorTask) (p : ℚ) :
    (insertByPos t l).filter (fun x => decide (x.gantt.position = p)) =
      ((t :: l).filter (fun x => decide (x.gantt.position = p))) := by
  induction l with
  | nil => rfl
  | cons u us ih =>
    by_cases hc : t.gantt.position ≤ u.gantt.position
    · simp [insertByPos, hc]
    · simp only [insertByPos, if_neg hc]
      by_cases ht : t.gantt.position = p <;> by_cases hu : u.gantt.position = p
      · exact absurd (le_of_eq (ht.trans hu.symm)) hc
      all_goals simp [List.filter_cons, ht, hu, ih]

/-- Stability of the sort: the elements at one position are unchanged,
in their original relative order. -/
theorem sortByPos_filter (l : List MajorTask) (p : ℚ) :
    (sortByPos l).filter (fun x => decide (x.gantt.position = p)) =
      l.filter (fun x => decide (x.gantt.position = p)) := by
  induction l with
  | nil => rfl
  | cons t ts ih =>
    rw [sortByPos, filter_insertByPos, List.filter_cons, List.filter_cons, ih]

/-- C4: aggregating a TaskCategory reorders its MajorTask sequence into
ascending order of `gantt.position` with a stable sort: the output
sequence is a permutation of the input, it is pairwise ordered by
`gantt.position`, the tasks at any one position keep their original
relative order, and e.g. positions `[3, 1, 2]` end up `[1, 2, 3]`. -/
theorem category_tasks_sorted_stably_by_position :
    (∀ c : TaskCategoryIn,
      ((aggregateCategory c).tasks).Perm c.tasks ∧
      ((aggregateCategory c).tasks).Pairwise posLe ∧
      ∀ p : ℚ,
        ((aggregateCategory c).tasks).filter (fun x => decide (x.gantt.position = p)) =
          c.tasks.filter (fun x => decide (x.gantt.position = p))) ∧
    (aggregateCategory sampleCategoryIn).tasks.map (fun t => t.gantt.position) = [1, 2, 3] := by
  constructor
  · intro c
    refine ⟨?_, ?_, fun p => ?_⟩
    · simpa [aggregateCategory] using sortByPos_perm c.tasks
    · simpa [aggregateCategory] using sortByPos_pairwise c.tasks
    · simpa [aggregateCategory] using sortByPos_filter c.tasks p
  · norm_num [aggregateCategory, sampleCategoryIn, sampleMajor, sortByPos, insertByPos]

/-- An element failing makes the whole elementwise parse fail. -/
theorem parseList_error_of_mem {f : JsValue → Except String α} {xs : List JsValue}
    {x : JsValue} (hx : x ∈ xs) {e : String} (hfx : f x = .error e) :
    ∃ e2, parseList f xs = .error e2 := by
  induction xs with
  | nil => cases hx
  | cons y ys ih =>
    rcases List.mem_cons.mp hx with rfl | hmem
    · exact ⟨e, by simp [parseList, hfx, exceptBindErr]⟩
    · cases hfy : f y with
      | error e2 => exact ⟨e2, by simp [parseList, hfy, exceptBindErr]⟩
      | ok a =>
        rcases ih hmem with ⟨e2, he2⟩
        exact ⟨e2, by simp [parseList, hfy, he2, exceptBindOk, exceptBindErr]⟩

/-- Every element of a successful elementwise parse comes from parsing
some element of the raw array. -/
theorem parseList_ok_mem {f : JsValue → Except String α} :
    ∀ {xs : List JsValue} {l : List α}, parseList f xs = .ok l →
      ∀ y ∈ l, ∃ x ∈ xs, f x = .ok y := by
  intro xs
  induction xs with
  | nil =>
    intro l h y hy
    rw [parseList] at h
    cases h
    cases hy
  | cons z zs ih =>
    intro l h y hy
    rw [parseList] at h
    rcases exceptBind_eq_ok.mp h with ⟨a, ha, h2⟩
    rcases exceptBind_eq_ok.mp h2 with ⟨as, has, h3⟩
    cases h3
    rcases List.mem_cons.mp hy with rfl | hmem
    · exact ⟨z, List.mem_cons_self z zs, ha⟩
    · rcases ih has y hmem with ⟨x, hxmem, hfx⟩
      exact ⟨x, List.mem_cons_of_mem z hxmem, hfx⟩

/-- Elementwise parse of an encoded list succeeds when every element
round-trips. -/
theorem parseList_map_ok {f : JsValue → Except String α} {enc : α → JsValue}
    {l : List α} (h : ∀ y ∈ l, f (enc y) = .ok y) :
    parseList f (l.map enc) = .ok l := by
  induction l with
  | nil => rfl
  | cons y ys ih =>
    simp [parseList, h y (List.mem_cons_self y ys),
      ih (fun z hz => h z (List.mem_cons_of_mem y hz)), exceptBindOk]

/-- A minor-task object with no `name` key fails to validate. -/
theorem minorTask_parse_missing_name {fields : List (String × JsValue)}
    (h : getField fields ("name") = none) :
    minorTask_parse (.obj fields) = .error ("name: required") := by
  simp [minorTask_parse, parseStringField, h, exceptBindErr]

/-- A major task whose `tasks` array has a failing element fails, and so
aggregation over those children never happens. -/
theorem majorTask_parse_child_error {fields : List (String × JsValue)}
    {ms : List JsValue} {x : JsValue}
    (hts : getField fields ("tasks") = some (.arr ms)) (hx : x ∈ ms)
    {e : String} (hex : minorTask_parse x = .error e) :
    ∃ e2, majorTask_parse (.obj fields) = .error e2 := by
  rcases parseList_error_of_mem hx hex with ⟨e2, he2⟩
  cases hname : parseStringField fields ("name") with
  | error e3 =>
    exact ⟨e3, by simp [majorTask_parse, majorTaskIn_parse, hname,
      exceptBindErr, exceptMapErr]⟩
  | ok nm =>
    exact ⟨e2, by simp [majorTask_parse, majorTaskIn_parse, hname, exceptBindOk,
      parseArrayField, hts, he2, exceptBindErr, exceptMapErr]⟩

/-- A category whose `tasks` array has a failing element fails. -/
theorem taskCategory_parse_child_error {fields : List (String × JsValue)}
    {ms : List JsValue} {x : JsValue}
    (hts : getField fields ("tasks") = some (.arr ms)) (hx : x ∈ ms)
    {e : String} (hex : majorTask_parse x = .error e) :
    ∃ e2, taskCategory_parse (.obj fields) = .error e2 := by
  rcases parseList_error_of_mem hx hex with ⟨e2, he2⟩
  cases hname : parseStringField fields ("name") with
  | error e3 =>
    exact ⟨e3, by simp [taskCategory_parse, taskCategoryIn_parse, hname,
      exceptBindErr, exceptMapErr]⟩
  | ok nm =>
    exact ⟨e2, by simp [taskCategory_parse, taskCategoryIn_parse, hname, exceptBindOk,
      parseArrayField, hts, he2, exceptBindErr, exceptMapErr]⟩

/-- A document whose `estimates` array has a failing element fails. -/
theorem estimateList_parse_child_error {fields : List (String × JsValue)}
    {cs : List JsValue} {x : JsValue}
    (hcs : getField fields ("estimates") = some (.arr cs)) (hx : x ∈ cs)
    {e : String} (hex : taskCategory_parse x = .error e) :
    ∃ e2, estimateList_parse (.obj fields) = .error e2 := by
  rcases parseList_error_of_mem hx hex with ⟨e2, he2⟩
  exact ⟨e2, by simp [estimateList_parse, estimateSchema_parse,
    parseArrayField, hcs, he2, exceptBindErr, exceptMapErr]⟩

/-- C3: a raw document containing, anywhere in its hierarchy, a
minor-task object with no `name` field fails the whole parse-and-
aggregate operation with a shape error.  No partial result exists (the
result type is `Except`, whose error case carries no aggregated data),
and aggregation never runs over unvalidated children: each level's
aggregation is applied only to the `ok` result of its child parses. -/
theorem missing_minor_name_aborts_whole_parse
    {rootFields catFields majFields minFields : List (String × JsValue)}
    {cats majors minors : List JsValue}
    (hroot : getField rootFields ("estimates") = some (.arr cats))
    (hcat : JsValue.obj catFields ∈ cats)
    (hcatTasks : getField catFields ("tasks") = some (.arr majors))
    (hmaj : JsValue.obj majFields ∈ majors)
    (hmajTasks : getField majFields ("tasks") = some (.arr minors))
    (hmin : JsValue.obj minFields ∈ minors)
    (hnoname : getField minFields ("name") = none) :
    ∃ e, estimateList_parse (.obj rootFields) = .error e := by
  have hminor := minorTask_parse_missing_name hnoname
  rcases majorTask_parse_child_error hmajTasks hmin hminor with ⟨e1, he1⟩
  rcases taskCategory_parse_child_error hcatTasks hmaj he1 with ⟨e2, he2⟩
  exact estimateList_parse_child_error hroot hcat he2

/-- Witness for C3: the concrete document `badRootFields`, whose single
minor task has no `name`, fails to parse. -/
theorem missing_minor_name_aborts_whole_parse_witness :
    ∃ e, estimateList_parse (.obj badRootFields) = .error e :=
  @missing_minor_name_aborts_whole_parse badRootFields badCatFields badMajorFields
    badMinorFields [.obj badCatFields] [.obj badMajorFields] [.obj badMinorFields]
    (by simp [badRootFields, getField]) (by simp)
    (by simp [badCatFields, getField]) (by simp)
    (by simp [badMajorFields, getField]) (by simp)
    (by simp [badMinorFields, getField])

/-- C7: aggregating a major task does not reorder its minor tasks: a
successfully parsed major task's `tasks` are exactly the elementwise
parses of the raw `tasks` array, in input order (only category-level
children are ever reordered). -/
theorem major_task_order_preserved {fields : List (String × JsValue)}
    {ms : List JsValue} {t : MajorTask}
    (hts : getField fields ("tasks") = some (.arr ms))
    (hok : majorTask_parse (.obj fields) = .ok t) :
    parseList minorTask_parse ms = .ok t.tasks := by
  rcases exceptMap_eq_ok.mp hok with ⟨i, hi, hagg⟩
  rw [majorTaskIn_parse] at hi
  rcases exceptBind_eq_ok.mp hi with ⟨nm, hnm, hi2⟩
  rcases exceptBind_eq_ok.mp hi2 with ⟨tasks, htasks, hi3⟩
  rcases exceptBind_eq_ok.mp hi3 with ⟨g, hg, hi4⟩
  cases hi4
  simp only [parseArrayField, hts] at htasks
  rw [htasks, ← hagg]
  simp [aggregateMajor]

/-- Witness for C7: the two minor tasks of `goodMajorFields` come out in
input order. -/
theorem major_task_order_preserved_witness :
    parseList minorTask_parse [
      .obj [("name", .str "a"), ("lowerEstimate", .num 2), ("higherEstimate", .num 4),
            ("complexity", .num 1), ("confidence", .num 4)],
      .obj [("name", .str "b"), ("lowerEstimate", .num 1), ("higherEstimate", .num 2),
            ("complexity", .num 2), ("confidence", .num 2)]] = .ok sampleMajorOut.tasks :=
  @major_task_order_preserved goodMajorFields [
      .obj [("name", .str "a"), ("lowerEstimate", .num 2), ("higherEstimate", .num 4),
            ("complexity", .num 1), ("confidence", .num 4)],
      .obj [("name", .str "b"), ("lowerEstimate", .num 1), ("higherEstimate", .num 2),
            ("complexity", .num 2), ("confidence", .num 2)]] sampleMajorOut
    (by simp [goodMajorFields, getField])
    (by
      simp [majorTask_parse, majorTaskIn_parse, minorTask_parse, gantt_parse,
        parseStringField, parseNumberField, parseOptStringField, parseArrayField,
        parseList, getField, goodMajorFields, exceptBindOk, exceptBindErr,
        exceptMapOk, exceptMapErr]
      norm_num [aggregateMajor, reduceTotals, totalsStep, jsRound, MinorTask.est,
        sampleMajorOut])

/-- C9 (counterexample): the validator accepts a minor task whose
`lowerEstimate` is negative and whose `higherEstimate` is below its
`lowerEstimate`; the range constraints of the spec are not enforced. -/
theorem minor_validator_accepts_out_of_range :
    minorTask_parse outOfRangeMinorRaw = .ok ⟨"a", -1, -2, 1, 1, none⟩ ∧
    ¬(0 ≤ (-1 : ℚ) ∧ (-1 : ℚ) ≤ (-2 : ℚ)) := by
  constructor
  · simp [minorTask_parse, parseStringField, parseNumberField, parseOptStringField,
      getField, outOfRangeMinorRaw, exceptBindOk]
  · norm_num

/-- C9 (amended): the validator enforces only the field types of a
minor task, not any range bounds: an object carrying a string `name`
and arbitrary rational `lowerEstimate`, `higherEstimate`, `complexity`
and `confidence` always validates, with exactly those values. -/
theorem minor_validation_enforces_types_only :
    ∀ (nm : String) (a b c d : ℚ),
      minorTask_parse (.obj [("name", .str nm), ("lowerEstimate", .num a),
        ("higherEstimate", .num b), ("complexity", .num c), ("confidence", .num d)]) =
      .ok ⟨nm, a, b, c, d, none⟩ := by
  intro nm a b c d
  simp [minorTask_parse, parseStringField, parseNumberField, parseOptStringField,
    getField, exceptBindOk]

/-- Witness for C10: the two minor tasks of `sampleMajorIn` have
ordered bounds, so the aggregated major task does too. -/
theorem aggregation_preserves_bound_order_witness :
    (∀ m ∈ sampleMajorIn.tasks, m.lowerEstimate ≤ m.higherEstimate) ∧
    (aggregateMajor sampleMajorIn).lowerEstimate ≤
      (aggregateMajor sampleMajorIn).higherEstimate :=
  ⟨by norm_num [sampleMajorIn], aggregation_preserves_bound_order.1 sampleMajorIn
    (by norm_num [sampleMajorIn])⟩

/-- C5 (counterexample): aggregating a node with an empty child sequence
does not produce the NaN of a division by zero: the division sits inside
the `reduce` callback, which never runs on an empty array, so the
accumulator stays at its initial zeros and `Math.round 0 = 0`. -/
theorem empty_children_yield_zero_not_nan :
    reduceTotalsJ [] = ⟨.fin 0, .fin 0, .fin 0, .fin 0⟩ ∧
    (reduceTotalsJ []).complexity ≠ JsNum.nan ∧
    (reduceTotalsJ []).confidence ≠ JsNum.nan ∧
    (aggregateMajor ⟨"M", [], ⟨1, "2022-01-01", none, none⟩⟩).complexity = 0 := by
  refine ⟨?_, ?_, ?_, ?_⟩ <;>
    simp only [reduceTotalsJ, totalsStepJ, jsRoundNum, aggregateMajor,
      reduceTotals, totalsStep, List.foldl_nil, List.map_nil, ne_eq,
      EstimatesJ.mk.injEq] <;>
    first
      | (intro h; exact JsNum.noConfusion h)
      | norm_num [jsRound]

/-- C5 (amended): a non-leaf node with an empty child sequence
aggregates without any exception to all-zero derived fields — in
particular `complexity` and `confidence` are 0, not NaN, at all three
levels, and the NaN-aware model of the shared `reduce` confirms that no
non-finite value arises. -/
theorem empty_children_aggregate_to_zero :
    (∀ (nm : String) (g : Gantt),
      aggregateMajor ⟨nm, [], g⟩ = ⟨nm, [], g, 0, 0, 0, 0⟩) ∧
    (∀ nm : String, aggregateCategory ⟨nm, []⟩ = ⟨nm, [], 0, 0, 0, 0⟩) ∧
    aggregateRoot ⟨[]⟩ = ⟨[], 0, 0, 0, 0⟩ ∧
    reduceTotalsJ [] = ⟨.fin 0, .fin 0, .fin 0, .fin 0⟩ := by
  refine ⟨fun nm g => ?_, fun nm => ?_, ?_, ?_⟩ <;>
    norm_num [aggregateMajor, aggregateCategory, aggregateRoot, sortByPos,
      reduceTotals, totalsStep, reduceTotalsJ, totalsStepJ, jsRoundNum, jsRound,
      MajorTask.mk.injEq, TaskCategory.mk.injEq, EstimateList.mk.injEq,
      EstimatesJ.mk.injEq]

/-- Dropping derived keys does not change the lookup of a non-derived key. -/
theorem getField_removeDerivedKeys {fields : List (String × JsValue)} {key : String}
    (hk : derivedKeys.contains key = false) :
    getField (removeDerivedKeys fields) key = getField fields key := by
  induction fields with
  | nil => rfl
  | cons p ps ih =>
    rcases p with ⟨k, v⟩
    by_cases hd : derivedKeys.contains k
    · have hne : k ≠ key := by
        rintro rfl
        rw [hk] at hd
        cases hd
      have hd2 : k ∈ derivedKeys := by simpa using hd
      have hdrop : removeDerivedKeys ((k, v) :: ps) = removeDerivedKeys ps := by
        simp only [removeDerivedKeys, List.filter_cons]
        simp [hd2]
      rw [hdrop, ih]
      simp [getField, hne]
    · have hd2 : k ∉ derivedKeys := by simpa using hd
      have hkeep : removeDerivedKeys ((k, v) :: ps) = (k, v) :: removeDerivedKeys ps := by
        simp only [removeDerivedKeys, List.filter_cons]
        simp [hd2]
      rw [hkeep]
      by_cases hkey : k = key
      · subst hkey
        simp [getField]
      · simp [getField, hkey, ih]

/-- Lookup in a field list whose `target` entry's value was transformed. -/
theorem getField_mapField {fields : List (String × JsValue)} {key target : String}
    {g : JsValue → JsValue} :
    getField (mapField target g fields) key =
      if key = target then (getField fields key).map g else getField fields key := by
  induction fields with
  | nil => by_cases h : key = target <;> simp [mapField, getField, h]
  | cons p ps ih =>
    rcases p with ⟨k, v⟩
    by_cases hk : k = key
    · subst hk
      by_cases ht : k = target <;> simp [mapField, getField, ht]
    · by_cases ht : k = target
      · have hkt : ¬target = key := fun h => hk (ht.trans h)
        have hkt2 : ¬key = target := fun h => hkt h.symm
        simp [mapField, getField, ht, hk, hkt, hkt2, ih]
      · simp [mapField, getField, ht, hk, ih]

/-- Elementwise parse is unchanged by a transformation of the raw
elements that every element's parse ignores. -/
theorem parseList_map_congr {f : JsValue → Except String α} {g : JsValue → JsValue}
    (h : ∀ x, f (g x) = f x) : ∀ xs : List JsValue,
    parseList f (xs.map g) = parseList f xs := by
  intro xs
  induction xs with
  | nil => rfl
  | cons y ys ih => rw [List.map_cons, parseList, parseList, h y, ih]

/-- Erasing the derived fields of a raw major task does not change its
parse: `majorTaskIn` reads only `name`, `tasks` and `gantt`. -/
theorem majorTask_parse_eraseMajor (v : JsValue) :
    majorTask_parse (eraseMajor v) = majorTask_parse v := by
  cases v with
  | obj fields =>
    have hname := @getField_removeDerivedKeys fields ("name") (by rfl)
    have htasks := @getField_removeDerivedKeys fields ("tasks") (by rfl)
    have hgantt := @getField_removeDerivedKeys fields ("gantt") (by rfl)
    simp only [eraseMajor, majorTask_parse, majorTaskIn_parse, parseStringField,
      parseArrayField, hname, htasks, hgantt]
  | null => rfl
  | bool b => rfl
  | num x => rfl
  | str s => rfl
  | arr xs => rfl

/-- Erasing the derived fields of a raw category, and of the major tasks
in its `tasks` array, does not change its parse. -/
theorem taskCategory_parse_eraseCategory (v : JsValue) :
    taskCategory_parse (eraseCategory v) = taskCategory_parse v := by
  cases v with
  | obj fields =>
    have hname : getField (mapField ("tasks") (mapArr eraseMajor)
        (removeDerivedKeys fields)) ("name") = getField fields ("name") := by
      rw [getField_mapField, if_neg (by decide),
        @getField_removeDerivedKeys fields ("name") (by rfl)]
    have htasks : getField (mapField ("tasks") (mapArr eraseMajor)
        (removeDerivedKeys fields)) ("tasks") =
        (getField fields ("tasks")).map (mapArr eraseMajor) := by
      rw [getField_mapField, if_pos rfl,
        @getField_removeDerivedKeys fields ("tasks") (by rfl)]
    simp only [eraseCategory, taskCategory_parse, taskCategoryIn_parse,
      parseStringField, parseArrayField, hname, htasks]
    cases hts : getField fields ("tasks") with
    | none => rfl
    | some w =>
      cases w with
      | arr xs =>
        simp only [Option.map_some', mapArr]
        rw [parseList_map_congr majorTask_parse_eraseMajor xs]
      | null => rfl
      | bool b => rfl
      | num x => rfl
      | str s => rfl
      | obj fs => rfl
  | null => rfl
  | bool b => rfl
  | num x => rfl
  | str s => rfl
  | arr xs => rfl

/-- Erasing the derived fields of a raw document at all non-leaf levels
does not change the whole parse-and-aggregate result. -/
theorem estimateList_parse_eraseRoot (v : JsValue) :
    estimateList_parse (eraseRoot v) = estimateList_parse v := by
  cases v with
  | obj fields =>
    have hests : getField (mapField ("estimates") (mapArr eraseCategory)
        (removeDerivedKeys fields)) ("estimates") =
        (getField fields ("estimates")).map (mapArr eraseCategory) := by
      rw [getField_mapField, if_pos rfl,
        @getField_removeDerivedKeys fields ("estimates") (by rfl)]
    simp only [eraseRoot, estimateList_parse, estimateSchema_parse,
      parseArrayField, hests]
    cases hts : getField fields ("estimates") with
    | none => rfl
    | some w =>
      cases w with
      | arr xs =>
        simp only [Option.map_some', mapArr]
        rw [parseList_map_congr taskCategory_parse_eraseCategory xs]
      | null => rfl
      | bool b => rfl
      | num x => rfl
      | str s => rfl
      | obj fs => rfl
  | null => rfl
  | bool b => rfl
  | num x => rfl
  | str s => rfl
  | arr xs => rfl

/-- C8: the derived estimate fields supplied on non-leaf nodes of the
raw input are ignored — the derivation fully replaces them.  Any two raw
documents that agree after erasing the four derived keys from the root
object, its category objects and their major-task objects (leaf minor
tasks untouched) parse-and-aggregate to identical results. -/
theorem derived_fields_of_raw_input_ignored {v1 v2 : JsValue}
    (h : eraseRoot v1 = eraseRoot v2) :
    estimateList_parse v1 = estimateList_parse v2 := by
  rw [← estimateList_parse_eraseRoot v1, ← estimateList_parse_eraseRoot v2, h]

/-- Witness for C8: a document carrying spurious derived fields at the
root, a category and a major task parses to the same result as the
document without them. -/
theorem derived_fields_of_raw_input_ignored_witness :
    estimateList_parse rawWithDerived = estimateList_parse rawWithoutDerived :=
  derived_fields_of_raw_input_ignored (by rfl)

/-- Sorting an already sorted list is the identity. -/
theorem sortByPos_eq_of_pairwise :
    ∀ {l : List MajorTask}, l.Pairwise posLe → sortByPos l = l := by
  intro l
  induction l with
  | nil => intro _; rfl
  | cons t ts ih =>
    intro h
    rcases List.pairwise_cons.mp h with ⟨ht, hts⟩
    rw [sortByPos, ih hts]
    cases ts with
    | nil => rfl
    | cons u us =>
      simp only [insertByPos]
      exact if_pos (ht u (List.mem_cons_self u us))

/-- The totals only depend on the multiset of children. -/
theorem reduceTotals_perm {l1 l2 : List Estimates} (h : l1.Perm l2) :
    reduceTotals l1 = reduceTotals l2 := by
  rw [reduceTotals_eq, reduceTotals_eq, (h.map Estimates.lowerEstimate).sum_eq,
    (h.map Estimates.higherEstimate).sum_eq, (h.map Estimates.complexity).sum_eq,
    (h.map Estimates.confidence).sum_eq, h.length_eq]

/-- A parsed minor task encodes back to a raw object parsing to itself. -/
theorem minorTask_parse_encode (m : MinorTask) :
    minorTask_parse (encodeMinor m) = .ok m := by
  rcases m with ⟨nm, a, b, c, d, co⟩
  cases co <;>
    simp [encodeMinor, optField, minorTask_parse, parseStringField, parseNumberField,
      parseOptStringField, getField, exceptBindOk]

/-- A parsed schedule entry encodes back to a raw object parsing to
itself. -/
theorem gantt_parse_encode (g : Gantt) :
    gantt_parse (encodeGantt g) = .ok g := by
  rcases g with ⟨p, st, la, co⟩
  cases la <;> cases co <;>
    simp [encodeGantt, optField, gantt_parse, parseNumberField, parseStringField,
      parseOptStringField, getField, exceptBindOk]

/-- The raw encoding of an aggregated major task passes the input-shape
check, yielding its input fields (derived fields are read past). -/
theorem majorTaskIn_parse_encode (t : MajorTask) :
    majorTaskIn_parse (encodeMajor t) = .ok ⟨t.name, t.tasks, t.gantt⟩ := by
  have hl : parseList minorTask_parse (t.tasks.map encodeMinor) = .ok t.tasks :=
    parseList_map_ok (fun y _ => minorTask_parse_encode y)
  simp [encodeMajor, majorTaskIn_parse, parseStringField, parseArrayField, getField,
    exceptBindOk, hl, gantt_parse_encode t.gantt]

/-- Re-aggregating the input part of an aggregated major task reproduces
it: the derived fields never feed back into the aggregation. -/
theorem aggregateMajor_proj (i : MajorTaskIn) :
    aggregateMajor ⟨(aggregateMajor i).name, (aggregateMajor i).tasks,
      (aggregateMajor i).gantt⟩ = aggregateMajor i := by
  cases i
  rfl

/-- A successfully parsed major task re-parses from its encoding to
exactly itself. -/
theorem majorTask_parse_roundtrip {v : JsValue} {t : MajorTask}
    (h : majorTask_parse v = .ok t) :
    majorTask_parse (encodeMajor t) = .ok t := by
  rcases exceptMap_eq_ok.mp h with ⟨i, hi, hagg⟩
  subst hagg
  rw [majorTask_parse, majorTaskIn_parse_encode, exceptMapOk]
  exact congrArg Except.ok (aggregateMajor_proj i)

/-- Every parsed element of a raw array field comes from a successful
element parse. -/
theorem parseArrayField_ok_mem {elem : JsValue → Except String α}
    {fields : List (String × JsValue)} {key : String} {l : List α}
    (h : parseArrayField elem fields key = .ok l) :
    ∀ y ∈ l, ∃ x, elem x = .ok y := by
  rw [parseArrayField] at h
  cases hg : getField fields key with
  | none => rw [hg] at h; cases h
  | some w =>
    rw [hg] at h
    cases w with
    | arr xs =>
      intro y hy
      rcases parseList_ok_mem h y hy with ⟨x, _, hx⟩
      exact ⟨x, hx⟩
    | null => cases h
    | bool b => cases h
    | num x => cases h
    | str s => cases h
    | obj fs => cases h

/-- The raw encoding of an aggregated category passes the input-shape
check, provided its major tasks round-trip. -/
theorem taskCategoryIn_parse_encode (c : TaskCategory)
    (h : ∀ x ∈ c.tasks, majorTask_parse (encodeMajor x) = .ok x) :
    taskCategoryIn_parse (encodeCategory c) = .ok ⟨c.name, c.tasks⟩ := by
  have hl : parseList majorTask_parse (c.tasks.map encodeMajor) = .ok c.tasks :=
    parseList_map_ok h
  simp [encodeCategory, taskCategoryIn_parse, parseStringField, parseArrayField,
    getField, exceptBindOk, hl]

/-- Re-aggregating the input part of an aggregated category reproduces
it: re-sorting a sorted sequence is the identity and the totals are
permutation-invariant. -/
theorem aggregateCategory_proj (j : TaskCategoryIn) :
    aggregateCategory ⟨(aggregateCategory j).name, (aggregateCategory j).tasks⟩
      = aggregateCategory j := by
  rcases j with ⟨nm, ts⟩
  have hsort : sortByPos (sortByPos ts) = sortByPos ts :=
    sortByPos_eq_of_pairwise (sortByPos_pairwise ts)
  have htot : reduceTotals ((sortByPos ts).map MajorTask.est) =
      reduceTotals (ts.map MajorTask.est) :=
    reduceTotals_perm ((sortByPos_perm ts).map MajorTask.est)
  simp [aggregateCategory, hsort, htot]

/-- A successfully parsed category re-parses from its encoding to
exactly itself. -/
theorem taskCategory_parse_roundtrip {v : JsValue} {c : TaskCategory}
    (h : taskCategory_parse v = .ok c) :
    taskCategory_parse (encodeCategory c) = .ok c := by
  rcases exceptMap_eq_ok.mp h with ⟨j, hj, hagg⟩
  subst hagg
  have hmem : ∀ x ∈ (aggregateCategory j).tasks,
      majorTask_parse (encodeMajor x) = .ok x := by
    intro x hx
    have hx2 : x ∈ j.tasks := ((sortByPos_perm j.tasks).mem_iff).mp (by
      simpa [aggregateCategory] using hx)
    cases v with
    | obj fields =>
      simp only [taskCategoryIn_parse] at hj
      rcases exceptBind_eq_ok.mp hj with ⟨nm, hnm, hj2⟩
      rcases exceptBind_eq_ok.mp hj2 with ⟨ts, hts, hj3⟩
      cases hj3
      rcases parseArrayField_ok_mem hts x hx2 with ⟨raw, hraw⟩
      exact majorTask_parse_roundtrip hraw
    | null => simp [taskCategoryIn_parse] at hj
    | bool b => simp [taskCategoryIn_parse] at hj
    | num x2 => simp [taskCategoryIn_parse] at hj
    | str s => simp [taskCategoryIn_parse] at hj
    | arr xs => simp [taskCategoryIn_parse] at hj
  rw [taskCategory_parse, taskCategoryIn_parse_encode _ hmem, exceptMapOk]
  exact congrArg Except.ok (aggregateCategory_proj j)

/-- The raw encoding of an aggregated plan passes the input-shape check,
provided its categories round-trip. -/
theorem estimateSchema_parse_encode (r : EstimateList)
    (h : ∀ x ∈ r.estimates, taskCategory_parse (encodeCategory x) = .ok x) :
    estimateSchema_parse (encodeRoot r) = .ok ⟨r.estimates⟩ := by
  have hl : parseList taskCategory_parse (r.estimates.map encodeCategory) =
      .ok r.estimates := parseList_map_ok h
  simp [encodeRoot, estimateSchema_parse, parseArrayField, getField, exceptBindOk, hl]

/-- Re-aggregating the input part of an aggregated plan reproduces it. -/
theorem aggregateRoot_proj (p : EstimateSchema) :
    aggregateRoot ⟨(aggregateRoot p).estimates⟩ = aggregateRoot p := by
  cases p
  rfl

/-- C6: the reducer is idempotent: when a raw document parses and
aggregates to the plan `r`, encoding the fully aggregated tree `r` back
to a raw document (derived fields and all) and re-running the same
parse-and-aggregate operation yields exactly `r` again — the same
derived `lowerEstimate`, `higherEstimate`, `complexity` and `confidence`
at every node and the same child ordering. -/
theorem reducer_idempotent {v : JsValue} {r : EstimateList}
    (h : estimateList_parse v = .ok r) :
    estimateList_parse (encodeRoot r) = .ok r := by
  rcases exceptMap_eq_ok.mp h with ⟨p, hp, hagg⟩
  subst hagg
  have hmem : ∀ x ∈ (aggregateRoot p).estimates,
      taskCategory_parse (encodeCategory x) = .ok x := by
    intro x hx
    have hx2 : x ∈ p.estimates := by simpa [aggregateRoot] using hx
    cases v with
    | obj fields =>
      simp only [estimateSchema_parse] at hp
      rcases exceptBind_eq_ok.mp hp with ⟨cats, hcats, hp2⟩
      cases hp2
      rcases parseArrayField_ok_mem hcats x hx2 with ⟨raw, hraw⟩
      exact taskCategory_parse_roundtrip hraw
    | null => simp [estimateSchema_parse] at hp
    | bool b => simp [estimateSchema_parse] at hp
    | num x2 => simp [estimateSchema_parse] at hp
    | str s => simp [estimateSchema_parse] at hp
    | arr xs => simp [estimateSchema_parse] at hp
  rw [estimateList_parse, estimateSchema_parse_encode _ hmem, exceptMapOk]
  exact congrArg Except.ok (aggregateRoot_proj p)

/-- Witness for C6: the concrete document `sampleRootRaw` aggregates to
`sampleRootOut`, and re-parsing the encoded output reproduces it. -/
theorem reducer_idempotent_witness :
    estimateList_parse (encodeRoot sampleRootOut) = .ok sampleRootOut :=
  @reducer_idempotent sampleRootRaw sampleRootOut (by
    simp [estimateList_parse, estimateSchema_parse, taskCategory_parse,
      taskCategoryIn_parse, majorTask_parse, majorTaskIn_parse, minorTask_parse,
      gantt_parse, parseStringField, parseNumberField, parseOptStringField,
      parseArrayField, parseList, getField, sampleRootRaw, goodMajorFields,
      exceptBindOk, exceptBindErr, exceptMapOk, exceptMapErr]
    norm_num [aggregateMajor, aggregateCategory, aggregateRoot, sortByPos,
      insertByPos, reduceTotals, totalsStep, jsRound, MinorTask.est, MajorTask.est,
      TaskCategory.est, sampleRootOut, sampleMajorOut])
